import Mathlib

set_option maxHeartbeats 1000000

/-
Verification of `update_feeds.py` (game-rss-feeds repository).

This file gives a shallow embedding, in Lean 4, of the pure computational
content of the script: the three source extractors (`fetch_league_dev`,
`fetch_valorant_dev`, `fetch_gamersky_reviews`), the feed builder
(`build_rss`), the fallback updater (`update_lastbuild_only`) and the
orchestrator (`main`).  Effects are made explicit:

  * the HTML page fetched by `requests.get` + BeautifulSoup is abstracted
    to the list of anchor elements carrying an `href` attribute
    (`find_all("a", href=True)`): each anchor is its href string, its
    stripped text (`get_text(strip=True)`) and its optional `title`
    attribute;
  * `datetime.datetime.utcnow()` already formatted by
    `strftime("%a, %d %b %Y %H:%M:%S +0000")` is passed in as a string
    parameter `now`;
  * the filesystem is a per-source `FileState` (missing / unreadable-or-
    malformed / parsed XML tree), and write failures are an explicit
    oracle bit, since `tree.write` in `main` can raise.

XML element trees (`xml.etree.ElementTree`) become the inductive `XElem`;
Python dicts of strings become association lists (`Dict`).
-/

/-- Replace the first element satisfying `p` by its image under `f`;
all other elements are untouched. -/
def replaceFirst (p : α → Bool) (f : α → α) : List α → List α
  | [] => []
  | x :: xs => if p x then f x :: xs else x :: replaceFirst p f xs

/-- An XML element: tag, attributes (in insertion order), optional text,
and the ordered list of child elements (`xml.etree.ElementTree.Element`). -/
inductive XElem where
  | mk (tag : String) (attrs : List (String × String)) (text : Option String)
       (children : List XElem)

def XElem.tag : XElem → String
  | .mk t _ _ _ => t

def XElem.attrs : XElem → List (String × String)
  | .mk _ a _ _ => a

def XElem.text : XElem → Option String
  | .mk _ _ x _ => x

def XElem.children : XElem → List XElem
  | .mk _ _ _ c => c

/-- `tagIs t e` : does element `e` carry tag `t`? -/
def tagIs (t : String) (e : XElem) : Bool := e.tag == t

/-- `Element.find(t)` of ElementTree: the first direct child with tag `t`. -/
def findChild (e : XElem) (t : String) : Option XElem :=
  e.children.find? (tagIs t)

/-- Number of elements with tag `t` in a forest, descendants included. -/
def countTagList (t : String) : List XElem → Nat
  | [] => 0
  | .mk tg _ _ cs :: rest =>
      (if tg == t then 1 else 0) + countTagList t cs + countTagList t rest

/-- A Python `Dict[str, str]` as an association list (keys unique in
every dict this program builds, so first-match lookup is dict lookup). -/
abbrev Dict := List (String × String)

/-- `d[k]` guarded by `k in d`: `some v` iff key `k` is present. -/
def dget (d : Dict) (k : String) : Option String :=
  (d.find? (fun p => p.1 == k)).map Prod.snd

/-- Lookup with a default value (`d.get(k, v)`). -/
def dgetD (d : Dict) (k v : String) : String := (dget d k).getD v

/-- Modelled from Python's stdlib `html.unescape` (not part of this
repository): replaces HTML character-entity references by the characters
they denote and copies every other character.  A representative table of
named entities is included; numeric references are omitted, as no claim
depends on a particular entity, only on `unescape` being the identity on
entity-free text and never erasing a character. -/
def unescapeCore : List Char → List Char
  | [] => []
  | '&' :: 'a' :: 'm' :: 'p' :: ';' :: rest => '&' :: unescapeCore rest
  | '&' :: 'l' :: 't' :: ';' :: rest => '<' :: unescapeCore rest
  | '&' :: 'g' :: 't' :: ';' :: rest => '>' :: unescapeCore rest
  | '&' :: 'q' :: 'u' :: 'o' :: 't' :: ';' :: rest => '"' :: unescapeCore rest
  | '&' :: 'n' :: 'b' :: 's' :: 'p' :: ';' :: rest =>
      Char.ofNat 160 :: unescapeCore rest
  | c :: rest => c :: unescapeCore rest

/-- `html.unescape` on strings. -/
def unescape (s : String) : String := String.mk (unescapeCore s.data)

/-- Does the list start with the given pattern? -/
def hasPrefixL : List Char → List Char → Bool
  | [], _ => true
  | _ :: _, [] => false
  | p :: ps, c :: cs => p == c && hasPrefixL ps cs

/-- Does the pattern occur as a contiguous sublist? -/
def hasInfixL (pat : List Char) : List Char → Bool
  | [] => pat.isEmpty
  | c :: cs => hasPrefixL pat (c :: cs) || hasInfixL pat cs

/-- Python `sub in s` (substring containment). -/
def strContains (s sub : String) : Bool := hasInfixL sub.data s.data

/-- Python `s.startswith(pre)`. -/
def strStarts (s pre : String) : Bool := hasPrefixL pre.data s.data

/-- Python `s.endswith(suf)`. -/
def strEnds (s suf : String) : Bool := hasPrefixL suf.data.reverse s.data.reverse

/-- Gregorian leap year, as in Python's `calendar`/`datetime`. -/
def isLeap (y : Nat) : Bool := (y % 4 == 0 && y % 100 != 0) || y % 400 == 0

/-- Days in month `m` (1..12) of year `y`. -/
def daysInMonth (y m : Nat) : Nat :=
  if m == 2 then (if isLeap y then 29 else 28)
  else if m == 4 || m == 6 || m == 9 || m == 11 then 30
  else 31

/-- Days in year `y` strictly before month `m`. -/
def daysBeforeMonth (y m : Nat) : Nat :=
  (List.range m).foldl (fun acc i => if 1 ≤ i then acc + daysInMonth y i else acc) 0

/-- `datetime.date(y, m, d).toordinal()`: day number in the proleptic
Gregorian calendar, with 0001-01-01 as day 1. -/
def toordinal (y m d : Nat) : Nat :=
  365 * (y - 1) + (y - 1) / 4 - (y - 1) / 100 + (y - 1) / 400
    + daysBeforeMonth y m + d

/-- `%a` of `strftime` (C locale): abbreviated weekday name.  Python maps
ordinal 1 (0001-01-01) to Monday. -/
def weekdayAbbrev (y m d : Nat) : String :=
  match (toordinal y m d + 6) % 7 with
  | 0 => "Mon" | 1 => "Tue" | 2 => "Wed" | 3 => "Thu"
  | 4 => "Fri" | 5 => "Sat" | _ => "Sun"

/-- `%b` of `strftime` (C locale): abbreviated month name. -/
def monthAbbrev (m : Nat) : String :=
  match m with
  | 1 => "Jan" | 2 => "Feb" | 3 => "Mar" | 4 => "Apr" | 5 => "May"
  | 6 => "Jun" | 7 => "Jul" | 8 => "Aug" | 9 => "Sep" | 10 => "Oct"
  | 11 => "Nov" | _ => "Dec"

/-- `%d` of `strftime`: zero-padded two-digit day. -/
def pad2 (n : Nat) : String :=
  if n < 10 then "0" ++ Nat.repr n else Nat.repr n

/-- `dt.strftime("%a, %d %b %Y %H:%M:%S +0000")` for a `datetime` produced
by `strptime(_, "%d/%m/%Y")`, whose time-of-day is midnight. -/
def fmtDMY (y m d : Nat) : String :=
  weekdayAbbrev y m d ++ ", " ++ pad2 d ++ " " ++ monthAbbrev m ++ " "
    ++ Nat.repr y ++ " 00:00:00 +0000"

/-- Does `re` pattern `(\d{2}/\d{2}/\d{4})` match at the head of the list?
Returns the ten matched characters.  (Python's `\d` also covers non-ASCII
decimal digits; ASCII digits suffice for every string in this development.) -/
def matchDateAt (l : List Char) : Option (List Char) :=
  match l with
  | d1 :: d2 :: '/' :: m1 :: m2 :: '/' :: y1 :: y2 :: y3 :: y4 :: _ =>
      if d1.isDigit && d2.isDigit && m1.isDigit && m2.isDigit
          && y1.isDigit && y2.isDigit && y3.isDigit && y4.isDigit then
        some [d1, d2, '/', m1, m2, '/', y1, y2, y3, y4]
      else none
  | _ => none

/-- `re.search(r"(\d{2}/\d{2}/\d{4})", s)`: the leftmost match. -/
def searchDate : List Char → Option (List Char)
  | [] => none
  | c :: cs =>
      match matchDateAt (c :: cs) with
      | some m => some m
      | none => searchDate cs

/-- Numeric value of a list of decimal digits. -/
def digitsToNat (l : List Char) : Nat :=
  l.foldl (fun acc c => acc * 10 + (c.toNat - 48)) 0

/-- `datetime.strptime(ds, "%d/%m/%Y")` on a ten-character match
`dd/mm/yyyy`: `some (y, m, d)` when the date is valid, `none` when
strptime would raise `ValueError` (month outside 1..12, day outside the
month, or year below `MINYEAR = 1`). -/
def strptimeDMY (ds : List Char) : Option (Nat × Nat × Nat) :=
  let d := digitsToNat (ds.take 2)
  let m := digitsToNat ((ds.drop 3).take 2)
  let y := digitsToNat (ds.drop 6)
  if 1 ≤ y && 1 ≤ m && m ≤ 12 && 1 ≤ d && d ≤ daysInMonth y m then
    some (y, m, d)
  else none

/-- An anchor element with an `href` attribute, as returned by
`soup.find_all("a", href=True)`: its href, its stripped text
(`a.get_text(strip=True)`) and its optional `title` attribute. -/
structure Anchor where
  href : String
  text : String
  titleAttr : Option String
deriving DecidableEq

/-- The item dict every extractor appends:
`{"title": t, "description": t, "pubDate": pub, "link": href,
"guid": href, "enclosure_url": ""}` (with `t` already entity-decoded). -/
def mkFeedItem (t pub link : String) : Dict :=
  [("title", t), ("description", t), ("pubDate", pub), ("link", link),
   ("guid", link), ("enclosure_url", "")]

/-- League link filter:
`"/news/dev" in href or href.startswith("https://www.youtube.com")`. -/
def leagueAccept (href : String) : Bool :=
  strContains href "/news/dev" || strStarts href "https://www.youtube.com"

/-- League title heuristic: `title = a.get_text(strip=True)`;
`if not title: title = a.get("title", "League dev update")`. -/
def leagueTitle (a : Anchor) : String :=
  if a.text == "" then a.titleAttr.getD "League dev update" else a.text

/-- The pubDate computed in the League loop body: search the raw title for
`(\d{2}/\d{2}/\d{4})`; on a match, `strptime` + `strftime` (with `none`
signalling the `ValueError` strptime raises on an invalid date); with no
match, the formatted current UTC time `now`. -/
def leaguePubDate (now : String) (title : String) : Option String :=
  match searchDate title.data with
  | some ds => (strptimeDMY ds).map (fun v => fmtDMY v.1 v.2.1 v.2.2)
  | none => some now

/-- The `for a in candidates:` loop of `fetch_league_dev`.  A `ValueError`
from `strptime` escapes the loop into the function's `except` handler,
which returns the items accumulated so far. -/
def leagueLoop (now : String) : List Anchor → List Dict → List Dict
  | [], items => items
  | a :: rest, items =>
      if leagueAccept a.href then
        let title := leagueTitle a
        match leaguePubDate now title with
        | none => items
        | some pub =>
            let items' := items ++ [mkFeedItem (unescape title) pub a.href]
            if 10 ≤ items'.length then items' else leagueLoop now rest items'
      else leagueLoop now rest items

/-- `fetch_league_dev`, over the anchors of the fetched page. -/
def fetch_league_dev (anchors : List Anchor) (now : String) : List Dict :=
  leagueLoop now anchors []

/-- Valorant link filter:
`if "/news/dev" not in href and not href.startswith("https://www.youtube.com"): continue`. -/
def valorantAccept (href : String) : Bool :=
  !(!(strContains href "/news/dev")
      && !(strStarts href "https://www.youtube.com"))

/-- Valorant title heuristic (default `"VALORANT dev update"`). -/
def valorantTitle (a : Anchor) : String :=
  if a.text == "" then a.titleAttr.getD "VALORANT dev update" else a.text

/-- The title cascade both dev-news extractors follow: link text, then
the `title` attribute, then a per-extractor static default string. -/
def titleRule (dflt : String) (a : Anchor) : String :=
  if a.text == "" then a.titleAttr.getD dflt else a.text

/-- The `for a in soup.find_all(...)` loop of `fetch_valorant_dev`:
always stamps the current UTC time. -/
def valorantLoop (now : String) : List Anchor → List Dict → List Dict
  | [], items => items
  | a :: rest, items =>
      if valorantAccept a.href then
        let title := valorantTitle a
        let items' := items ++ [mkFeedItem (unescape title) now a.href]
        if 10 ≤ items'.length then items' else valorantLoop now rest items'
      else valorantLoop now rest items

/-- `fetch_valorant_dev`, over the anchors of the fetched page. -/
def fetch_valorant_dev (anchors : List Anchor) (now : String) : List Dict :=
  valorantLoop now anchors []

/-- Gamersky link filter: `"/news/" in href and href.endswith(".shtml")`. -/
def gamerskyAccept (href : String) : Bool :=
  strContains href "/news/" && strEnds href ".shtml"

/-- The loop of `fetch_gamersky_reviews`: anchors with empty stripped text
are skipped (no fallback title); always stamps current UTC time. -/
def gamerskyLoop (now : String) : List Anchor → List Dict → List Dict
  | [], items => items
  | a :: rest, items =>
      if gamerskyAccept a.href then
        if a.text == "" then gamerskyLoop now rest items
        else
          let items' := items ++ [mkFeedItem (unescape a.text) now a.href]
          if 10 ≤ items'.length then items' else gamerskyLoop now rest items'
      else gamerskyLoop now rest items

/-- `fetch_gamersky_reviews`, over the anchors of the fetched page. -/
def fetch_gamersky_reviews (anchors : List Anchor) (now : String) : List Dict :=
  gamerskyLoop now anchors []

/-- The conditional child creation of `build_rss`'s two field loops:
`if key in d and d[key]: ET.SubElement(parent, key).text = d[key]`. -/
def fieldElem (d : Dict) (k : String) : Option XElem :=
  match dget d k with
  | some v => if v == "" then none else some (XElem.mk k [] (some v) [])
  | none => none

/-- One step of `build_rss`'s field loops: append to the parent's child
list whatever `fieldElem` creates for key `k`. -/
def appendField (d : Dict) (acc : List XElem) (k : String) : List XElem :=
  match fieldElem d k with
  | some e => acc ++ [e]
  | none => acc

/-- The `item` element assembled by the inner loop of `build_rss`: the
five optional field children in source order, then the conditional
`enclosure` sub-element (`if item.get("enclosure_url"): ...` with
attributes `url`, `length="0"`, `type="image/*"`). -/
def buildItemElem (it : Dict) : XElem :=
  let subs := ["title", "description", "pubDate", "link", "guid"].foldl
    (appendField it) []
  let subs2 :=
    match dget it "enclosure_url" with
    | some u =>
        if u == "" then subs
        else subs ++ [XElem.mk "enclosure"
          [("url", u), ("length", "0"), ("type", "image/*")] none []]
    | none => subs
  XElem.mk "item" [] none subs2

/-- `build_rss(channel, items)`: the ElementTree assembled by the source's
sequence of `ET.SubElement` appends, with the already formatted current
UTC time passed in as `now`. -/
def build_rss (channel : Dict) (now : String) (items : List Dict) : XElem :=
  let chanKids1 := ["title", "link", "description", "language"].foldl
    (appendField channel) []
  let chanKids2 := chanKids1 ++ [XElem.mk "lastBuildDate" [] (some now) []]
  let chanKids3 := items.foldl (fun acc it => acc ++ [buildItemElem it]) chanKids2
  XElem.mk "rss" [("version", "2.0")] none
    [XElem.mk "channel" [] none chanKids3]

/-- The channel children that `build_rss` creates from the channel dict,
stated compositionally (used to characterise the foldl-built tree). -/
def chanFields (channel : Dict) : List XElem :=
  ["title", "link", "description", "language"].filterMap (fieldElem channel)

/-- The enclosure sub-element list of one item: present exactly when
`item.get("enclosure_url")` is truthy. -/
def encList (it : Dict) : List XElem :=
  match dget it "enclosure_url" with
  | some u =>
      if u == "" then []
      else [XElem.mk "enclosure"
        [("url", u), ("length", "0"), ("type", "image/*")] none []]
  | none => []

/-- The `item` element `build_rss` creates for one item dict, stated
compositionally. -/
def itemXml (it : Dict) : XElem :=
  XElem.mk "item" [] none
    ((["title", "description", "pubDate", "link", "guid"].filterMap
        (fieldElem it)) ++ encList it)

/-- The content at a feed file's path: absent, unreadable or unparsable
(`ET.parse` raises), or a parsed XML tree. -/
inductive FileState where
  | missing
  | malformed (raw : String)
  | parsed (root : XElem)

/-- Does the parsed tree have the structure `update_lastbuild_only`
requires: a `channel` child of the root holding a `lastBuildDate` child? -/
def hasStructure (root : XElem) : Bool :=
  match findChild root "channel" with
  | some chan => (findChild chan "lastBuildDate").isSome
  | none => false

/-- `hasStructure` lifted to a file state (a missing or malformed file
makes `ET.parse` raise, so no structure is found). -/
def hasStructureFS : FileState → Bool
  | .parsed root => hasStructure root
  | _ => false

/-- `lb.text = now` on the found element: same element with new text. -/
def setLBText (now : String) (lb : XElem) : XElem :=
  XElem.mk lb.tag lb.attrs (some now) lb.children

/-- Rewrite the text of the first `lastBuildDate` child of a channel. -/
def setChan (now : String) (chan : XElem) : XElem :=
  XElem.mk chan.tag chan.attrs chan.text
    (replaceFirst (tagIs "lastBuildDate") (setLBText now) chan.children)

/-- `lb.text = now` performed on the tree: rewrite the text of the first
`lastBuildDate` child of the first `channel` child of the root. -/
def setLastBuild (root : XElem) (now : String) : XElem :=
  XElem.mk root.tag root.attrs root.text
    (replaceFirst (tagIs "channel") (setChan now) root.children)

/-- `update_lastbuild_only(file_path)`: parse; if a `channel` child with a
`lastBuildDate` child exists, rewrite that text and write the file back;
every exception (unreadable or malformed file included) is caught and
logged.  Returns the resulting file state and whether `tree.write` was
reached. -/
def update_lastbuild_only (fs : FileState) (now : String) : FileState × Bool :=
  match fs with
  | .missing => (.missing, false)
  | .malformed raw => (.malformed raw, false)
  | .parsed root =>
      match findChild root "channel" with
      | none => (.parsed root, false)
      | some chan =>
          match findChild chan "lastBuildDate" with
          | none => (.parsed root, false)
          | some _ => (.parsed (setLastBuild root now), true)

/-- One configured source as `main` sees it: its channel dict, what its
fetcher returned (the fetchers catch their own exceptions, so this is a
plain list), the current content of its feed file, and whether a write to
that path raises (`OSError` from `tree.write`). -/
structure SourceEnv where
  channel : Dict
  fetched : List Dict
  file : FileState
  writeFails : Bool

/-- The body of `main`'s `for feed in feeds:` loop for one source.  With
items, `build_rss` then `tree.write` — the write is NOT inside a
try/except, so a failing write raises out of `main`.  With no items,
`update_lastbuild_only` runs, whose internal try catches everything (a
failing write there leaves the file as it was). -/
def processFeed (now : String) (s : SourceEnv) : Except String FileState :=
  if s.fetched.isEmpty then
    let u := update_lastbuild_only s.file now
    .ok (if u.2 && s.writeFails then s.file else u.1)
  else
    if s.writeFails then .error "OSError: tree.write"
    else .ok (.parsed (build_rss s.channel now s.fetched))

/-- `main()`: process the configured sources in order; an exception in one
iteration aborts the loop and the process (nonzero exit). -/
def mainRun (now : String) : List SourceEnv → Except String (List FileState)
  | [] => .ok []
  | s :: rest =>
      match processFeed now s with
      | .error e => .error e
      | .ok f =>
          match mainRun now rest with
          | .error e => .error e
          | .ok fsl => .ok (f :: fsl)

/-- Did the process exit with status 0 (no uncaught exception)? -/
def exitsZero (r : Except String (List FileState)) : Bool :=
  match r with
  | .ok _ => true
  | .error _ => false

/-- Number of `item` children of the document's first `channel` child. -/
def itemCount (doc : XElem) : Nat :=
  match findChild doc "channel" with
  | some chan => (chan.children.filter (tagIs "item")).length
  | none => 0

/-- Erase the text of the found `lastBuildDate` element. -/
def clearLBText (lb : XElem) : XElem :=
  XElem.mk lb.tag lb.attrs none lb.children

/-- Erase the text of the first `lastBuildDate` child of a channel. -/
def stripChan (chan : XElem) : XElem :=
  XElem.mk chan.tag chan.attrs chan.text
    (replaceFirst (tagIs "lastBuildDate") clearLBText chan.children)

/-- Erase the text of the `lastBuildDate` element targeted by the fallback
updater: two trees are equal after `stripLB` exactly when they differ at
most in that text. -/
def stripLB (root : XElem) : XElem :=
  XElem.mk root.tag root.attrs root.text
    (replaceFirst (tagIs "channel") stripChan root.children)

/-- The item elements of the document's first `channel` child. -/
def chanItems (root : XElem) : List XElem :=
  match findChild root "channel" with
  | some chan => chan.children.filter (tagIs "item")
  | none => []

/-- The channel children other than `lastBuildDate` elements and items:
the channel metadata (title, link, description, language, ...). -/
def chanMeta (root : XElem) : List XElem :=
  match findChild root "channel" with
  | some chan =>
      chan.children.filter
        (fun e => !(tagIs "lastBuildDate" e) && !(tagIs "item" e))
  | none => []

/-- The text of the `lastBuildDate` element the fallback updater targets
(`none` when the structure is absent). -/
def lbText (root : XElem) : Option (Option String) :=
  match findChild root "channel" with
  | some chan => (findChild chan "lastBuildDate").map XElem.text
  | none => none

/-- A small well-formed feed tree (as written by this program) used as a
concrete input for evaluating the fallback updater. -/
def root0 : XElem :=
  XElem.mk "rss" [("version", "2.0")] none
    [XElem.mk "channel" [] none
      [XElem.mk "title" [] (some "League of Legends Dev News") [],
       XElem.mk "link" [] (some "https://www.leagueoflegends.com/en-gb/news/dev/") [],
       XElem.mk "lastBuildDate" [] (some "Tue, 01 Jul 2025 00:00:00 +0000") [],
       XElem.mk "item" [] none
         [XElem.mk "title" [] (some "Dev diary") [],
          XElem.mk "link" [] (some "/news/dev/diary") []]]]

/- ===================== helper lemmas ===================== -/

theorem foldl_append_eq (f : α → β) :
    ∀ (l : List α) (acc : List β),
      l.foldl (fun acc x => acc ++ [f x]) acc = acc ++ l.map f := by
  intro l
  induction l with
  | nil => intro acc; simp
  | cons x xs ih =>
      intro acc
      simp only [List.foldl_cons, List.map_cons]
      rw [ih]
      simp

theorem replaceFirst_congr (p : α → Bool) (f g : α → α)
    (h : ∀ x, f x = g x) : ∀ l, replaceFirst p f l = replaceFirst p g l := by
  intro l
  induction l with
  | nil => rfl
  | cons x xs ih =>
      simp only [replaceFirst]
      by_cases hp : p x = true
      · simp [hp, h x]
      · simp [hp, ih]

theorem replaceFirst_replaceFirst (p : α → Bool) (f g : α → α)
    (hf : ∀ x, p (f x) = p x) :
    ∀ l, replaceFirst p g (replaceFirst p f l)
      = replaceFirst p (fun x => g (f x)) l := by
  intro l
  induction l with
  | nil => rfl
  | cons x xs ih =>
      simp only [replaceFirst]
      by_cases hp : p x = true
      · simp [hp, replaceFirst, hf x]
      · simp [hp, replaceFirst, ih]

theorem find?_replaceFirst (p : α → Bool) (f : α → α)
    (hf : ∀ x, p (f x) = p x) :
    ∀ l : List α, (replaceFirst p f l).find? p = (l.find? p).map f := by
  intro l
  induction l with
  | nil => rfl
  | cons x xs ih =>
      simp only [replaceFirst]
      by_cases hp : p x = true
      · simp [hp, List.find?_cons, hf x]
      · simp [hp, List.find?_cons, ih]

theorem filter_replaceFirst (p q : α → Bool) (f : α → α)
    (h : ∀ x, p x = true → (q x = false ∧ q (f x) = false)) :
    ∀ l : List α, (replaceFirst p f l).filter q = l.filter q := by
  intro l
  induction l with
  | nil => rfl
  | cons x xs ih =>
      simp only [replaceFirst]
      by_cases hp : p x = true
      · obtain ⟨h1, h2⟩ := h x hp
        simp [hp, List.filter_cons, h1, h2]
      · simp [hp, List.filter_cons, ih]

theorem unescapeCore_ne_nil : ∀ l : List Char, l ≠ [] → unescapeCore l ≠ [] := by
  intro l h
  match l with
  | [] => exact absurd rfl h
  | c :: rest =>
      rw [unescapeCore.eq_def]
      split <;> simp_all

theorem unescape_ne_empty (s : String) (h : s ≠ "") : unescape s ≠ "" := by
  intro hcon
  apply unescapeCore_ne_nil s.data
  · intro hd
    apply h
    cases s with
    | mk data => cases hd; rfl
  · have : (unescape s).data = ("" : String).data := by rw [hcon]
    simpa [unescape] using this

theorem dget_mkFeedItem_title (t pub link : String) :
    dget (mkFeedItem t pub link) "title" = some t := rfl

theorem dget_mkFeedItem_description (t pub link : String) :
    dget (mkFeedItem t pub link) "description" = some t := rfl

theorem dget_mkFeedItem_pubDate (t pub link : String) :
    dget (mkFeedItem t pub link) "pubDate" = some pub := rfl

theorem dget_mkFeedItem_link (t pub link : String) :
    dget (mkFeedItem t pub link) "link" = some link := rfl

theorem dget_mkFeedItem_guid (t pub link : String) :
    dget (mkFeedItem t pub link) "guid" = some link := rfl

theorem dget_mkFeedItem_enc (t pub link : String) :
    dget (mkFeedItem t pub link) "enclosure_url" = some "" := rfl

theorem leagueAccept_ne_empty (href : String) (h : leagueAccept href = true) :
    href ≠ "" := by
  intro heq
  rw [heq] at h
  exact absurd h (by decide)

theorem gamerskyAccept_ne_empty (href : String) (h : gamerskyAccept href = true) :
    href ≠ "" := by
  intro heq
  rw [heq] at h
  exact absurd h (by decide)

theorem leagueLoop_mem (now : String) :
    ∀ (anchors : List Anchor) (items : List Dict) (it : Dict),
      it ∈ leagueLoop now anchors items →
      it ∈ items ∨ ∃ a ∈ anchors, leagueAccept a.href = true ∧
        ∃ pub, leaguePubDate now (leagueTitle a) = some pub ∧
          it = mkFeedItem (unescape (leagueTitle a)) pub a.href := by
  intro anchors
  induction anchors with
  | nil => intro items it h; exact Or.inl h
  | cons a rest ih =>
      intro items it h
      rw [leagueLoop] at h
      by_cases hacc : leagueAccept a.href = true
      · simp only [hacc, if_true] at h
        cases hpub : leaguePubDate now (leagueTitle a) with
        | none => rw [hpub] at h; exact Or.inl h
        | some pub =>
            rw [hpub] at h
            simp only at h
            by_cases hlen :
                10 ≤ (items ++ [mkFeedItem (unescape (leagueTitle a)) pub a.href]).length
            · rw [if_pos hlen] at h
              rcases List.mem_append.mp h with h1 | h2
              · exact Or.inl h1
              · refine Or.inr ⟨a, List.mem_cons_self a rest, hacc, pub, hpub, ?_⟩
                simpa using h2
            · rw [if_neg hlen] at h
              rcases ih _ it h with h1 | ⟨a', ha', hacc', pub', hpub', heq'⟩
              · rcases List.mem_append.mp h1 with h2 | h3
                · exact Or.inl h2
                · refine Or.inr ⟨a, List.mem_cons_self a rest, hacc, pub, hpub, ?_⟩
                  simpa using h3
              · exact Or.inr ⟨a', List.mem_cons_of_mem a ha', hacc', pub', hpub', heq'⟩
      · simp only [hacc, if_false] at h
        rcases ih _ it h with h1 | ⟨a', ha', hacc', pub', hpub', heq'⟩
        · exact Or.inl h1
        · exact Or.inr ⟨a', List.mem_cons_of_mem a ha', hacc', pub', hpub', heq'⟩

theorem valorantLoop_mem (now : String) :
    ∀ (anchors : List Anchor) (items : List Dict) (it : Dict),
      it ∈ valorantLoop now anchors items →
      it ∈ items ∨ ∃ a ∈ anchors, valorantAccept a.href = true ∧
        it = mkFeedItem (unescape (valorantTitle a)) now a.href := by
  intro anchors
  induction anchors with
  | nil => intro items it h; exact Or.inl h
  | cons a rest ih =>
      intro items it h
      rw [valorantLoop] at h
      by_cases hacc : valorantAccept a.href = true
      · simp only [hacc, if_true] at h
        by_cases hlen :
            10 ≤ (items ++ [mkFeedItem (unescape (valorantTitle a)) now a.href]).length
        · rw [if_pos hlen] at h
          rcases List.mem_append.mp h with h1 | h2
          · exact Or.inl h1
          · refine Or.inr ⟨a, List.mem_cons_self a rest, hacc, ?_⟩
            simpa using h2
        · rw [if_neg hlen] at h
          rcases ih _ it h with h1 | ⟨a', ha', hacc', heq'⟩
          · rcases List.mem_append.mp h1 with h2 | h3
            · exact Or.inl h2
            · refine Or.inr ⟨a, List.mem_cons_self a rest, hacc, ?_⟩
              simpa using h3
          · exact Or.inr ⟨a', List.mem_cons_of_mem a ha', hacc', heq'⟩
      · simp only [hacc, if_false] at h
        rcases ih _ it h with h1 | ⟨a', ha', hacc', heq'⟩
        · exact Or.inl h1
        · exact Or.inr ⟨a', List.mem_cons_of_mem a ha', hacc', heq'⟩

theorem gamerskyLoop_mem (now : String) :
    ∀ (anchors : List Anchor) (items : List Dict) (it : Dict),
      it ∈ gamerskyLoop now anchors items →
      it ∈ items ∨ ∃ a ∈ anchors, gamerskyAccept a.href = true ∧
        a.text ≠ "" ∧ it = mkFeedItem (unescape a.text) now a.href := by
  intro anchors
  induction anchors with
  | nil => intro items it h; exact Or.inl h
  | cons a rest ih =>
      intro items it h
      rw [gamerskyLoop] at h
      by_cases hacc : gamerskyAccept a.href = true
      · simp only [hacc, if_true] at h
        by_cases htext : a.text == ""
        · rw [if_pos htext] at h
          rcases ih _ it h with h1 | ⟨a', ha', hacc', htext', heq'⟩
          · exact Or.inl h1
          · exact Or.inr ⟨a', List.mem_cons_of_mem a ha', hacc', htext', heq'⟩
        · rw [if_neg htext] at h
          have htext2 : a.text ≠ "" := by simpa using htext
          by_cases hlen :
              10 ≤ (items ++ [mkFeedItem (unescape a.text) now a.href]).length
          · rw [if_pos hlen] at h
            rcases List.mem_append.mp h with h1 | h2
            · exact Or.inl h1
            · refine Or.inr ⟨a, List.mem_cons_self a rest, hacc, htext2, ?_⟩
              simpa using h2
          · rw [if_neg hlen] at h
            rcases ih _ it h with h1 | ⟨a', ha', hacc', htext', heq'⟩
            · rcases List.mem_append.mp h1 with h2 | h3
              · exact Or.inl h2
              · refine Or.inr ⟨a, List.mem_cons_self a rest, hacc, htext2, ?_⟩
                simpa using h3
            · exact Or.inr ⟨a', List.mem_cons_of_mem a ha', hacc', htext', heq'⟩
      · simp only [hacc, if_false] at h
        rcases ih _ it h with h1 | ⟨a', ha', hacc', htext', heq'⟩
        · exact Or.inl h1
        · exact Or.inr ⟨a', List.mem_cons_of_mem a ha', hacc', htext', heq'⟩

theorem leagueLoop_length (now : String) :
    ∀ (anchors : List Anchor) (items : List Dict), items.length < 10 →
      (leagueLoop now anchors items).length ≤ 10 := by
  intro anchors
  induction anchors with
  | nil => intro items h; rw [leagueLoop]; omega
  | cons a rest ih =>
      intro items h
      rw [leagueLoop]
      by_cases hacc : leagueAccept a.href = true
      · simp only [hacc, if_true]
        cases hpub : leaguePubDate now (leagueTitle a) with
        | none => exact Nat.le_of_lt h
        | some pub =>
            simp only
            by_cases hlen :
                10 ≤ (items ++ [mkFeedItem (unescape (leagueTitle a)) pub a.href]).length
            · rw [if_pos hlen]
              simp only [List.length_append, List.length_cons, List.length_nil]
              omega
            · rw [if_neg hlen]
              apply ih
              omega
      · simp only [hacc, if_false]
        exact ih items h

theorem valorantLoop_length (now : String) :
    ∀ (anchors : List Anchor) (items : List Dict), items.length < 10 →
      (valorantLoop now anchors items).length ≤ 10 := by
  intro anchors
  induction anchors with
  | nil => intro items h; rw [valorantLoop]; omega
  | cons a rest ih =>
      intro items h
      rw [valorantLoop]
      by_cases hacc : valorantAccept a.href = true
      · simp only [hacc, if_true]
        by_cases hlen :
            10 ≤ (items ++ [mkFeedItem (unescape (valorantTitle a)) now a.href]).length
        · rw [if_pos hlen]
          simp only [List.length_append, List.length_cons, List.length_nil]
          omega
        · rw [if_neg hlen]
          apply ih
          omega
      · simp only [hacc, if_false]
        exact ih items h

theorem gamerskyLoop_length (now : String) :
    ∀ (anchors : List Anchor) (items : List Dict), items.length < 10 →
      (gamerskyLoop now anchors items).length ≤ 10 := by
  intro anchors
  induction anchors with
  | nil => intro items h; rw [gamerskyLoop]; omega
  | cons a rest ih =>
      intro items h
      rw [gamerskyLoop]
      by_cases hacc : gamerskyAccept a.href = true
      · simp only [hacc, if_true]
        by_cases htext : a.text == ""
        · rw [if_pos htext]
          exact ih items h
        · rw [if_neg htext]
          by_cases hlen :
              10 ≤ (items ++ [mkFeedItem (unescape a.text) now a.href]).length
          · rw [if_pos hlen]
            simp only [List.length_append, List.length_cons, List.length_nil]
            omega
          · rw [if_neg hlen]
            apply ih
            omega
      · simp only [hacc, if_false]
        exact ih items h

theorem foldl_appendField (d : Dict) :
    ∀ (ks : List String) (acc : List XElem),
      ks.foldl (appendField d) acc = acc ++ ks.filterMap (fieldElem d) := by
  intro ks
  induction ks with
  | nil => intro acc; simp
  | cons k ks ih =>
      intro acc
      simp only [List.foldl_cons, List.filterMap_cons, appendField]
      cases h : fieldElem d k with
      | none => rw [ih]
      | some e => rw [ih]; simp

theorem buildItemElem_eq (it : Dict) : buildItemElem it = itemXml it := by
  simp only [buildItemElem, itemXml, encList, foldl_appendField, List.nil_append]
  cases hdget : dget it "enclosure_url" with
  | none => simp
  | some u =>
      by_cases hu : u == ""
      · simp [hu]
      · simp [hu]

theorem build_rss_eq (channel : Dict) (now : String) (items : List Dict) :
    build_rss channel now items =
      XElem.mk "rss" [("version", "2.0")] none
        [XElem.mk "channel" [] none
          (chanFields channel ++ [XElem.mk "lastBuildDate" [] (some now) []]
            ++ items.map itemXml)] := by
  simp only [build_rss, foldl_appendField, foldl_append_eq, List.nil_append,
    chanFields, List.append_assoc, buildItemElem_eq]

theorem tagIs_setLBText (q n : String) (x : XElem) :
    tagIs q (setLBText n x) = tagIs q x := by
  cases x with
  | mk a b c d => rfl

theorem tag_setLBText (n : String) (x : XElem) :
    (setLBText n x).tag = x.tag := by
  cases x with
  | mk a b c d => rfl

theorem tagIs_clearLBText (q : String) (x : XElem) :
    tagIs q (clearLBText x) = tagIs q x := by
  cases x with
  | mk a b c d => rfl

theorem tagIs_setChan (q n : String) (x : XElem) :
    tagIs q (setChan n x) = tagIs q x := by
  cases x with
  | mk a b c d => rfl

theorem tagIs_stripChan (q : String) (x : XElem) :
    tagIs q (stripChan x) = tagIs q x := by
  cases x with
  | mk a b c d => rfl

theorem stripChan_setChan (n : String) (x : XElem) :
    stripChan (setChan n x) = stripChan x := by
  cases x with
  | mk ctg cat ctx ccs =>
      simp only [setChan, stripChan, XElem.tag, XElem.attrs, XElem.text,
        XElem.children]
      rw [replaceFirst_replaceFirst _ _ _ (tagIs_setLBText "lastBuildDate" n)]
      apply congrArg
      apply replaceFirst_congr
      intro lb
      cases lb with
      | mk a b c d => rfl

theorem stripLB_setLastBuild (root : XElem) (n : String) :
    stripLB (setLastBuild root n) = stripLB root := by
  cases root with
  | mk tg ats tx cs =>
      simp only [setLastBuild, stripLB, XElem.tag, XElem.attrs, XElem.text,
        XElem.children]
      rw [replaceFirst_replaceFirst _ _ _ (tagIs_setChan "channel" n)]
      apply congrArg
      apply replaceFirst_congr
      intro chan
      exact stripChan_setChan n chan

theorem tag_eq_of_tagIs (t : String) (x : XElem) (h : tagIs t x = true) :
    x.tag = t := by
  simpa [tagIs] using h

theorem chanItems_setLastBuild (root : XElem) (n : String) :
    chanItems (setLastBuild root n) = chanItems root := by
  cases root with
  | mk tg ats tx cs =>
      simp only [chanItems, setLastBuild, findChild, XElem.children]
      rw [find?_replaceFirst _ _ (tagIs_setChan "channel" n)]
      cases hfind : cs.find? (tagIs "channel") with
      | none => rfl
      | some chan =>
          simp only [Option.map_some']
          cases chan with
          | mk ctg cat ctx ccs =>
              simp only [setChan, XElem.children]
              apply filter_replaceFirst
              intro x hx
              have hxtag := tag_eq_of_tagIs _ x hx
              constructor
              · simp [tagIs, hxtag]
              · rw [tagIs_setLBText]
                simp [tagIs, hxtag]

theorem chanMeta_setLastBuild (root : XElem) (n : String) :
    chanMeta (setLastBuild root n) = chanMeta root := by
  cases root with
  | mk tg ats tx cs =>
      simp only [chanMeta, setLastBuild, findChild, XElem.children]
      rw [find?_replaceFirst _ _ (tagIs_setChan "channel" n)]
      cases hfind : cs.find? (tagIs "channel") with
      | none => rfl
      | some chan =>
          simp only [Option.map_some']
          cases chan with
          | mk ctg cat ctx ccs =>
              simp only [setChan, XElem.children]
              apply filter_replaceFirst
              intro x hx
              have hxtag := tag_eq_of_tagIs _ x hx
              constructor
              · simp [tagIs, hxtag]
              · simp [tagIs_setLBText, tag_setLBText, tagIs, hxtag]

theorem hasStructure_setLastBuild (root : XElem) (n : String) :
    hasStructure (setLastBuild root n) = hasStructure root := by
  cases root with
  | mk tg ats tx cs =>
      simp only [hasStructure, setLastBuild, findChild, XElem.children]
      rw [find?_replaceFirst _ _ (tagIs_setChan "channel" n)]
      cases hfind : cs.find? (tagIs "channel") with
      | none => rfl
      | some chan =>
          simp only [Option.map_some']
          cases chan with
          | mk ctg cat ctx ccs =>
              simp only [setChan, XElem.children]
              rw [find?_replaceFirst _ _ (tagIs_setLBText "lastBuildDate" n)]
              cases hf2 : ccs.find? (tagIs "lastBuildDate") with
              | none => rfl
              | some lb => rfl

theorem lbText_setLastBuild (root : XElem) (n : String)
    (h : hasStructure root = true) :
    lbText (setLastBuild root n) = some (some n) := by
  cases root with
  | mk tg ats tx cs =>
      simp only [hasStructure, findChild, XElem.children] at h
      simp only [lbText, setLastBuild, findChild, XElem.children]
      rw [find?_replaceFirst _ _ (tagIs_setChan "channel" n)]
      cases hfind : cs.find? (tagIs "channel") with
      | none => rw [hfind] at h; simp at h
      | some chan =>
          rw [hfind] at h
          simp only [Option.map_some']
          cases chan with
          | mk ctg cat ctx ccs =>
              simp only [setChan, XElem.children] at h ⊢
              rw [find?_replaceFirst _ _ (tagIs_setLBText "lastBuildDate" n)]
              cases hf2 : ccs.find? (tagIs "lastBuildDate") with
              | none => rw [hf2] at h; simp at h
              | some lb =>
                  simp only [Option.map_some']
                  cases lb with
                  | mk a b c d => rfl

theorem update_of_hasStructure (root : XElem) (n : String)
    (h : hasStructure root = true) :
    update_lastbuild_only (.parsed root) n
      = (.parsed (setLastBuild root n), true) := by
  rw [hasStructure] at h
  simp only [update_lastbuild_only]
  cases hfind : findChild root "channel" with
  | none => rw [hfind] at h; simp at h
  | some chan =>
      rw [hfind] at h
      simp only [Option.isSome] at h
      simp only
      cases hf2 : findChild chan "lastBuildDate" with
      | none => rw [hf2] at h; simp at h
      | some lb => simp only

theorem update_no_structure (fs : FileState) (n : String)
    (h : hasStructureFS fs = false) :
    update_lastbuild_only fs n = (fs, false) := by
  cases fs with
  | missing => rfl
  | malformed raw => rfl
  | parsed root =>
      simp only [hasStructureFS, hasStructure] at h
      simp only [update_lastbuild_only]
      cases hfind : findChild root "channel" with
      | none => simp only
      | some chan =>
          rw [hfind] at h
          simp only [Option.isSome] at h
          simp only
          cases hf2 : findChild chan "lastBuildDate" with
          | none => simp only
          | some lb => rw [hf2] at h; simp at h

theorem update_written_eq_structure (fs : FileState) (n : String) :
    (update_lastbuild_only fs n).2 = hasStructureFS fs := by
  cases fs with
  | missing => rfl
  | malformed raw => rfl
  | parsed root =>
      simp only [update_lastbuild_only, hasStructureFS, hasStructure]
      cases hfind : findChild root "channel" with
      | none => rfl
      | some chan =>
          simp only
          cases hf2 : findChild chan "lastBuildDate" with
          | none => rfl
          | some lb => simp [hf2]

theorem mainRun_ok (now : String) :
    ∀ envs : List SourceEnv,
      (∀ s ∈ envs, s.fetched = [] ∨ s.writeFails = false) →
      exitsZero (mainRun now envs) = true := by
  intro envs
  induction envs with
  | nil => intro h; rfl
  | cons s rest ih =>
      intro h
      rw [mainRun]
      have hs := h s (List.mem_cons_self s rest)
      have hproc : ∃ f, processFeed now s = .ok f := by
        unfold processFeed
        by_cases hf : s.fetched.isEmpty = true
        · exact ⟨_, by rw [if_pos hf]⟩
        · rcases hs with h1 | h2
          · exact absurd (by simp [h1]) hf
          · exact ⟨_, by rw [if_neg hf, if_neg (by simp [h2])]⟩
      rcases hproc with ⟨f, hf⟩
      rw [hf]
      have hrest := ih (fun s2 hs2 => h s2 (List.mem_cons_of_mem s hs2))
      cases hm : mainRun now rest with
      | error e => rw [hm] at hrest; exact absurd hrest (by simp [exitsZero])
      | ok fsl => rfl

theorem mem_filterMap_fieldElem (d : Dict) (ks : List String) (e : XElem)
    (h : e ∈ ks.filterMap (fieldElem d)) :
    ∃ k ∈ ks, ∃ v, e = XElem.mk k [] (some v) [] := by
  rcases List.mem_filterMap.mp h with ⟨k, hk, hfe⟩
  refine ⟨k, hk, ?_⟩
  unfold fieldElem at hfe
  cases hdget : dget d k with
  | none => rw [hdget] at hfe; simp at hfe
  | some v =>
      rw [hdget] at hfe
      by_cases hv : v == ""
      · simp [hv] at hfe
      · simp only [hv, Bool.false_eq_true, if_false, Option.some_inj] at hfe
        exact ⟨v, hfe.symm⟩

theorem filter_item_chanFields (ch : Dict) :
    (chanFields ch).filter (tagIs "item") = [] := by
  rw [List.filter_eq_nil_iff]
  intro e he
  rcases mem_filterMap_fieldElem ch _ e he with ⟨k, hk, v, rfl⟩
  simp only [List.mem_cons, List.not_mem_nil, or_false] at hk
  rcases hk with rfl | rfl | rfl | rfl <;> simp [tagIs, XElem.tag]

theorem itemCount_build_rss (ch : Dict) (now : String) (items : List Dict) :
    itemCount (build_rss ch now items) = items.length := by
  rw [build_rss_eq]
  have hfind : findChild
      (XElem.mk "rss" [("version", "2.0")] none
        [XElem.mk "channel" [] none
          (chanFields ch ++ [XElem.mk "lastBuildDate" [] (some now) []]
            ++ items.map itemXml)]) "channel"
      = some (XElem.mk "channel" [] none
          (chanFields ch ++ [XElem.mk "lastBuildDate" [] (some now) []]
            ++ items.map itemXml)) := rfl
  rw [itemCount, hfind]
  simp only [XElem.children, List.filter_append]
  rw [filter_item_chanFields]
  have hlb : List.filter (tagIs "item")
      [XElem.mk "lastBuildDate" [] (some now) []] = [] := rfl
  rw [hlb]
  have hitems : (items.map itemXml).filter (tagIs "item") = items.map itemXml := by
    rw [List.filter_eq_self]
    intro e he
    rcases List.mem_map.mp he with ⟨it, hit, rfl⟩
    simp [itemXml, tagIs, XElem.tag]
  rw [hitems]
  simp

theorem countTagList_append (t : String) :
    ∀ l1 l2 : List XElem,
      countTagList t (l1 ++ l2) = countTagList t l1 + countTagList t l2 := by
  intro l1
  induction l1 with
  | nil => intro l2; simp [countTagList]
  | cons e es ih =>
      intro l2
      cases e with
      | mk tg a x cs =>
          rw [List.cons_append, countTagList, countTagList, ih]
          omega

theorem countTagList_eq_zero (t : String) :
    ∀ l : List XElem,
      (∀ e ∈ l, e.tag ≠ t ∧ countTagList t e.children = 0) →
      countTagList t l = 0 := by
  intro l
  induction l with
  | nil => intro h; rw [countTagList]
  | cons e es ih =>
      intro h
      cases e with
      | mk tg a x cs =>
          obtain ⟨h1, h2⟩ := h _ (List.mem_cons_self _ _)
          rw [countTagList]
          have htg : (tg == t) = false := by
            simp only [XElem.tag] at h1
            simpa using h1
          rw [htg]
          simp only [Bool.false_eq_true, if_false]
          rw [ih (fun e2 he2 => h e2 (List.mem_cons_of_mem _ he2))]
          simp only [XElem.children] at h2
          omega

theorem build_rss_no_enclosure (ch : Dict) (now : String) (items : List Dict)
    (h : ∀ it ∈ items, dget it "enclosure_url" = some "") :
    countTagList "enclosure" [build_rss ch now items] = 0 := by
  rw [build_rss_eq]
  apply countTagList_eq_zero
  intro e he
  simp only [List.mem_singleton] at he
  subst he
  refine ⟨by simp [XElem.tag], ?_⟩
  simp only [XElem.children]
  apply countTagList_eq_zero
  intro e2 he2
  simp only [List.mem_singleton] at he2
  subst he2
  refine ⟨by simp [XElem.tag], ?_⟩
  simp only [XElem.children]
  rw [countTagList_append, countTagList_append]
  have hmeta : countTagList "enclosure" (chanFields ch) = 0 := by
    apply countTagList_eq_zero
    intro e3 he3
    rcases mem_filterMap_fieldElem ch _ e3 he3 with ⟨k, hk, v, rfl⟩
    simp only [List.mem_cons, List.not_mem_nil, or_false] at hk
    rcases hk with rfl | rfl | rfl | rfl <;>
      exact ⟨by simp [XElem.tag], by simp [XElem.children, countTagList]⟩
  have hlb : countTagList "enclosure"
      [XElem.mk "lastBuildDate" [] (some now) []] = 0 := by
    simp [countTagList]
  have hitems : countTagList "enclosure" (items.map itemXml) = 0 := by
    apply countTagList_eq_zero
    intro e3 he3
    rcases List.mem_map.mp he3 with ⟨it, hit, rfl⟩
    refine ⟨by simp [itemXml, XElem.tag], ?_⟩
    simp only [itemXml, XElem.children]
    rw [countTagList_append]
    have hsubs : countTagList "enclosure"
        (["title", "description", "pubDate", "link", "guid"].filterMap
          (fieldElem it)) = 0 := by
      apply countTagList_eq_zero
      intro e4 he4
      rcases mem_filterMap_fieldElem it _ e4 he4 with ⟨k, hk, v, rfl⟩
      simp only [List.mem_cons, List.not_mem_nil, or_false] at hk
      rcases hk with rfl | rfl | rfl | rfl | rfl <;>
        exact ⟨by simp [XElem.tag], by simp [XElem.children, countTagList]⟩
    have henc : encList it = [] := by
      rw [encList, h it hit]
      simp
    rw [hsubs, henc]
    simp [countTagList]
  rw [hmeta, hlb, hitems]

theorem leagueTitle_ne_empty (a : Anchor)
    (h : a.text ≠ "" ∨ a.titleAttr ≠ some "") :
    unescape (leagueTitle a) ≠ "" := by
  unfold leagueTitle
  by_cases ht : a.text == ""
  · rw [if_pos ht]
    have ht2 : a.text = "" := by simpa using ht
    cases hta : a.titleAttr with
    | none =>
        simp only [Option.getD_none]
        exact unescape_ne_empty _ (by decide)
    | some s =>
        simp only [Option.getD_some]
        apply unescape_ne_empty
        rcases h with h1 | h2
        · exact absurd ht2 h1
        · intro hs
          exact h2 (by rw [hta, hs])
  · rw [if_neg ht]
    exact unescape_ne_empty _ (by simpa using ht)

theorem valorantTitle_ne_empty (a : Anchor)
    (h : a.text ≠ "" ∨ a.titleAttr ≠ some "") :
    unescape (valorantTitle a) ≠ "" := by
  unfold valorantTitle
  by_cases ht : a.text == ""
  · rw [if_pos ht]
    have ht2 : a.text = "" := by simpa using ht
    cases hta : a.titleAttr with
    | none =>
        simp only [Option.getD_none]
        exact unescape_ne_empty _ (by decide)
    | some s =>
        simp only [Option.getD_some]
        apply unescape_ne_empty
        rcases h with h1 | h2
        · exact absurd ht2 h1
        · intro hs
          exact h2 (by rw [hta, hs])
  · rw [if_neg ht]
    exact unescape_ne_empty _ (by simpa using ht)

theorem valorantAccept_eq_leagueAccept (href : String) :
    valorantAccept href = leagueAccept href := by
  unfold valorantAccept leagueAccept
  cases strContains href "/news/dev" <;>
    cases strStarts href "https://www.youtube.com" <;> rfl

theorem valorantAccept_ne_empty (href : String)
    (h : valorantAccept href = true) : href ≠ "" := by
  rw [valorantAccept_eq_leagueAccept] at h
  exact leagueAccept_ne_empty href h

/- ===================== claims ===================== -/

/-- C7: for every channel mapping and item list, `build_rss` emits an
`rss` root with version "2.0" whose single `channel` child contains, in
order, the channel fields title, link, description, language (each only
when present and non-empty), then `lastBuildDate`, then one `item`
element per input item whose children follow the order title,
description, pubDate, link, guid (each only when present and non-empty),
with an `enclosure` sub-element only when the enclosure url is non-empty,
carrying `length="0"` and `type="image/*"` (see `chanFields`, `itemXml`,
`encList`, `fieldElem`). -/
theorem C7_build_rss_structure (ch : Dict) (now : String) (items : List Dict) :
    build_rss ch now items = XElem.mk "rss" [("version", "2.0")] none
      [XElem.mk "channel" [] none
        (chanFields ch ++ [XElem.mk "lastBuildDate" [] (some now) []]
          ++ items.map itemXml)] :=
  build_rss_eq ch now items

/-- C4: every extractor returns between 0 and 10 items, and the feed
document built from an extractor's output contains at most 10 item
elements. -/
theorem C4_at_most_ten (now : String) (anchors : List Anchor) (ch : Dict) :
    (fetch_league_dev anchors now).length ≤ 10
    ∧ (fetch_valorant_dev anchors now).length ≤ 10
    ∧ (fetch_gamersky_reviews anchors now).length ≤ 10
    ∧ itemCount (build_rss ch now (fetch_league_dev anchors now)) ≤ 10
    ∧ itemCount (build_rss ch now (fetch_valorant_dev anchors now)) ≤ 10
    ∧ itemCount (build_rss ch now (fetch_gamersky_reviews anchors now)) ≤ 10 := by
  have h1 : (fetch_league_dev anchors now).length ≤ 10 :=
    leagueLoop_length now anchors [] (by decide)
  have h2 : (fetch_valorant_dev anchors now).length ≤ 10 :=
    valorantLoop_length now anchors [] (by decide)
  have h3 : (fetch_gamersky_reviews anchors now).length ≤ 10 :=
    gamerskyLoop_length now anchors [] (by decide)
  refine ⟨h1, h2, h3, ?_, ?_, ?_⟩ <;> rw [itemCount_build_rss] <;> assumption

/-- C6: the fallback updater never raises; whenever the file is missing,
unreadable, malformed, or the parsed tree lacks a channel with a
lastBuildDate child, it performs no write and leaves the file state
unchanged (it writes only when the expected structure is present). -/
theorem C6_fallback_no_structure (fs : FileState) (now : String)
    (h : hasStructureFS fs = false) :
    update_lastbuild_only fs now = (fs, false) :=
  update_no_structure fs now h

/-- C6 witness: a parsed tree without the expected structure is left
unchanged and unwritten. -/
theorem C6_fallback_no_structure_witness :
    update_lastbuild_only (.parsed (XElem.mk "rss" [] none []))
        "Tue, 01 Jul 2025 00:00:00 +0000"
      = (.parsed (XElem.mk "rss" [] none []), false) :=
  C6_fallback_no_structure _ _ (by decide)

/-- C5: on a well-formed feed file, running the fallback updater twice
changes only the text of the lastBuildDate element: after each run the
tree with that text erased, the item elements (with their ordered
contents), the item count and the channel metadata are all unchanged,
and the final lastBuildDate text is the second timestamp. -/
theorem C5_fallback_idempotent (root : XElem) (n1 n2 : String)
    (h : hasStructure root = true) :
    ∃ t1 t2 : XElem,
      update_lastbuild_only (.parsed root) n1 = (.parsed t1, true)
      ∧ update_lastbuild_only (.parsed t1) n2 = (.parsed t2, true)
      ∧ stripLB t1 = stripLB root
      ∧ stripLB t2 = stripLB root
      ∧ chanItems t1 = chanItems root
      ∧ chanItems t2 = chanItems root
      ∧ (chanItems t2).length = (chanItems root).length
      ∧ chanMeta t1 = chanMeta root
      ∧ chanMeta t2 = chanMeta root
      ∧ lbText t2 = some (some n2) := by
  have h1 : hasStructure (setLastBuild root n1) = true := by
    rw [hasStructure_setLastBuild]; exact h
  refine ⟨setLastBuild root n1, setLastBuild (setLastBuild root n1) n2,
    update_of_hasStructure root n1 h, update_of_hasStructure _ n2 h1,
    stripLB_setLastBuild root n1, ?_, chanItems_setLastBuild root n1, ?_, ?_,
    chanMeta_setLastBuild root n1, ?_, lbText_setLastBuild _ n2 h1⟩
  · rw [stripLB_setLastBuild, stripLB_setLastBuild]
  · rw [chanItems_setLastBuild, chanItems_setLastBuild]
  · rw [chanItems_setLastBuild, chanItems_setLastBuild]
  · rw [chanMeta_setLastBuild, chanMeta_setLastBuild]

/-- C5 witness: the frame property evaluated on the concrete feed tree
`root0`. -/
theorem C5_fallback_idempotent_witness :
    ∃ t1 t2 : XElem,
      update_lastbuild_only (.parsed root0) "Wed, 02 Jul 2025 00:00:00 +0000"
        = (.parsed t1, true)
      ∧ update_lastbuild_only (.parsed t1) "Thu, 03 Jul 2025 00:00:00 +0000"
        = (.parsed t2, true)
      ∧ stripLB t1 = stripLB root0
      ∧ stripLB t2 = stripLB root0
      ∧ chanItems t1 = chanItems root0
      ∧ chanItems t2 = chanItems root0
      ∧ (chanItems t2).length = (chanItems root0).length
      ∧ chanMeta t1 = chanMeta root0
      ∧ chanMeta t2 = chanMeta root0
      ∧ lbText t2 = some (some "Thu, 03 Jul 2025 00:00:00 +0000") :=
  C5_fallback_idempotent root0 "Wed, 02 Jul 2025 00:00:00 +0000"
    "Thu, 03 Jul 2025 00:00:00 +0000" (by decide)

/-- C9: every item any of the three extractors returns has its
description equal to its title and its guid equal to its link. -/
theorem C9_desc_title_guid_link (now : String) (anchors : List Anchor) :
    ((fetch_league_dev anchors now).all
        (fun it => (dget it "description" == dget it "title")
          && (dget it "guid" == dget it "link")) = true)
    ∧ ((fetch_valorant_dev anchors now).all
        (fun it => (dget it "description" == dget it "title")
          && (dget it "guid" == dget it "link")) = true)
    ∧ ((fetch_gamersky_reviews anchors now).all
        (fun it => (dget it "description" == dget it "title")
          && (dget it "guid" == dget it "link")) = true) := by
  refine ⟨?_, ?_, ?_⟩
  · rw [List.all_eq_true]
    intro it hit
    rcases leagueLoop_mem now anchors [] it hit with h0 | ⟨a, ha, hacc, pub, hpub, rfl⟩
    · simp at h0
    · simp [dget_mkFeedItem_description, dget_mkFeedItem_title,
        dget_mkFeedItem_guid, dget_mkFeedItem_link]
  · rw [List.all_eq_true]
    intro it hit
    rcases valorantLoop_mem now anchors [] it hit with h0 | ⟨a, ha, hacc, rfl⟩
    · simp at h0
    · simp [dget_mkFeedItem_description, dget_mkFeedItem_title,
        dget_mkFeedItem_guid, dget_mkFeedItem_link]
  · rw [List.all_eq_true]
    intro it hit
    rcases gamerskyLoop_mem now anchors [] it hit with h0 | ⟨a, ha, hacc, htext, rfl⟩
    · simp at h0
    · simp [dget_mkFeedItem_description, dget_mkFeedItem_title,
        dget_mkFeedItem_guid, dget_mkFeedItem_link]

theorem fetch_league_enc (now : String) (anchors : List Anchor) :
    ∀ it ∈ fetch_league_dev anchors now, dget it "enclosure_url" = some "" := by
  intro it hit
  rcases leagueLoop_mem now anchors [] it hit with h0 | ⟨a, ha, hacc, pub, hpub, rfl⟩
  · simp at h0
  · exact dget_mkFeedItem_enc _ _ _

theorem fetch_valorant_enc (now : String) (anchors : List Anchor) :
    ∀ it ∈ fetch_valorant_dev anchors now, dget it "enclosure_url" = some "" := by
  intro it hit
  rcases valorantLoop_mem now anchors [] it hit with h0 | ⟨a, ha, hacc, rfl⟩
  · simp at h0
  · exact dget_mkFeedItem_enc _ _ _

theorem fetch_gamersky_enc (now : String) (anchors : List Anchor) :
    ∀ it ∈ fetch_gamersky_reviews anchors now, dget it "enclosure_url" = some "" := by
  intro it hit
  rcases gamerskyLoop_mem now anchors [] it hit with h0 | ⟨a, ha, hacc, htext, rfl⟩
  · simp at h0
  · exact dget_mkFeedItem_enc _ _ _

/-- C10: every extractor stores an empty enclosure url in every item it
produces, and the feed the builder assembles from any extractor's output
contains no `enclosure` element anywhere. -/
theorem C10_no_enclosure (ch : Dict) (now : String) (anchors : List Anchor) :
    ((fetch_league_dev anchors now).all
        (fun it => dget it "enclosure_url" == some "") = true)
    ∧ ((fetch_valorant_dev anchors now).all
        (fun it => dget it "enclosure_url" == some "") = true)
    ∧ ((fetch_gamersky_reviews anchors now).all
        (fun it => dget it "enclosure_url" == some "") = true)
    ∧ countTagList "enclosure" [build_rss ch now (fetch_league_dev anchors now)] = 0
    ∧ countTagList "enclosure" [build_rss ch now (fetch_valorant_dev anchors now)] = 0
    ∧ countTagList "enclosure" [build_rss ch now (fetch_gamersky_reviews anchors now)] = 0 := by
  refine ⟨?_, ?_, ?_,
    build_rss_no_enclosure ch now _ (fetch_league_enc now anchors),
    build_rss_no_enclosure ch now _ (fetch_valorant_enc now anchors),
    build_rss_no_enclosure ch now _ (fetch_gamersky_enc now anchors)⟩
  · rw [List.all_eq_true]
    intro it hit
    simp [fetch_league_enc now anchors it hit]
  · rw [List.all_eq_true]
    intro it hit
    simp [fetch_valorant_enc now anchors it hit]
  · rw [List.all_eq_true]
    intro it hit
    simp [fetch_gamersky_enc now anchors it hit]

/-- C8 counterexample: on an anchor with empty text and no title
attribute the two extractors produce items with identical pubDates but
different titles (the per-extractor default strings), so they differ in
more than the timestamp. -/
theorem C8_counterexample :
    (fetch_league_dev [⟨"/news/dev", "", none⟩] "Thu, 01 Aug 2025 12:00:00 +0000").map
        (fun it => dget it "pubDate")
      = (fetch_valorant_dev [⟨"/news/dev", "", none⟩] "Thu, 01 Aug 2025 12:00:00 +0000").map
        (fun it => dget it "pubDate")
    ∧ (fetch_league_dev [⟨"/news/dev", "", none⟩] "Thu, 01 Aug 2025 12:00:00 +0000").map
        (fun it => dget it "title")
      ≠ (fetch_valorant_dev [⟨"/news/dev", "", none⟩] "Thu, 01 Aug 2025 12:00:00 +0000").map
        (fun it => dget it "title") := by
  decide

/-- C8 (amended): the Valorant link predicate is extensionally equal to
the League one (contains "/news/dev" or starts with the YouTube prefix);
both title derivations follow the same cascade `titleRule` (link text,
then title attribute, then a static default), though each extractor uses
its own default string; and Valorant always stamps the current UTC time
on every item. -/
theorem C8_valorant_league_equivalence :
    (∀ href : String, valorantAccept href = leagueAccept href)
    ∧ (∀ a : Anchor, leagueTitle a = titleRule "League dev update" a)
    ∧ (∀ a : Anchor, valorantTitle a = titleRule "VALORANT dev update" a)
    ∧ (∀ (anchors : List Anchor) (now : String),
        (fetch_valorant_dev anchors now).all
          (fun it => dgetD it "pubDate" "" == now) = true) := by
  refine ⟨valorantAccept_eq_leagueAccept, fun a => rfl, fun a => rfl, ?_⟩
  intro anchors now
  rw [List.all_eq_true]
  intro it hit
  rcases valorantLoop_mem now anchors [] it hit with h0 | ⟨a, ha, hacc, rfl⟩
  · simp at h0
  · simp [dgetD, dget_mkFeedItem_pubDate]

/-- C2 counterexample: when a fetcher returns items and the `tree.write`
of the rebuilt feed raises (the write sits outside any try/except in
`main`), the exception propagates and the process does not exit 0. -/
theorem C2_counterexample :
    exitsZero (mainRun "Thu, 01 Aug 2025 12:00:00 +0000"
      [⟨[("title", "T")], [mkFeedItem "t" "Thu, 01 Aug 2025 12:00:00 +0000" "/l"],
        .missing, true⟩]) = false := by
  decide

/-- C2 (amended): the run exits 0 provided every source that yields items
also has a succeeding feed-file write; fetcher errors are caught inside
the fetchers and every fallback-updater error is caught inside
`update_lastbuild_only`, so only a failing write of a successfully
rebuilt feed can abort `main`. -/
theorem C2_exit_zero (now : String) (envs : List SourceEnv)
    (h : ∀ s ∈ envs, s.fetched = [] ∨ s.writeFails = false) :
    exitsZero (mainRun now envs) = true :=
  mainRun_ok now envs h

/-- C2 witness: a run over a failed-fetch source (with a failing write
path) and a successful source whose write succeeds exits 0. -/
theorem C2_exit_zero_witness :
    exitsZero (mainRun "Thu, 01 Aug 2025 12:00:00 +0000"
      [⟨[("title", "T")], [], .missing, true⟩,
       ⟨[("title", "T")], [mkFeedItem "t" "Thu, 01 Aug 2025 12:00:00 +0000" "/l"],
         .missing, false⟩]) = true :=
  C2_exit_zero _ _ (by decide)

/-- C3 counterexample: an accepted anchor with empty link text and an
empty `title` attribute yields an item whose title is the empty string
(`a.get("title", default)` returns the empty attribute value), so not
every extracted item has a non-empty title. -/
theorem C3_counterexample :
    fetch_league_dev [⟨"/news/dev", "", some ""⟩] "Thu, 01 Aug 2025 12:00:00 +0000"
      = [mkFeedItem "" "Thu, 01 Aug 2025 12:00:00 +0000" "/news/dev"]
    ∧ (fetch_league_dev [⟨"/news/dev", "", some ""⟩]
        "Thu, 01 Aug 2025 12:00:00 +0000").all
        (fun it => !(dgetD it "title" "" == "")) = false := by
  decide

/-- C3 (amended): every item produced by any of the three extractors has
a non-empty link (an accepted href contains "/news/dev", starts with the
YouTube prefix, or contains "/news/" and ends with ".shtml", so it is
never empty), and every review-site item has a non-empty title; the
League/Valorant titles are also non-empty provided no accepted anchor
carries an empty-string `title` attribute together with empty link text
(`a.get("title", default)` returns the empty attribute value, which then
stands as the title). -/
theorem C3_title_link_nonempty (now : String) (anchors : List Anchor) :
    ((fetch_league_dev anchors now).all
        (fun it => !(dgetD it "link" "" == "")) = true)
    ∧ ((fetch_valorant_dev anchors now).all
        (fun it => !(dgetD it "link" "" == "")) = true)
    ∧ ((fetch_gamersky_reviews anchors now).all
        (fun it => !(dgetD it "link" "" == "")) = true)
    ∧ ((fetch_gamersky_reviews anchors now).all
        (fun it => !(dgetD it "title" "" == "")) = true)
    ∧ ((∀ a ∈ anchors, leagueAccept a.href = true →
          (a.text ≠ "" ∨ a.titleAttr ≠ some "")) →
        ((fetch_league_dev anchors now).all
            (fun it => !(dgetD it "title" "" == "")) = true)
        ∧ ((fetch_valorant_dev anchors now).all
            (fun it => !(dgetD it "title" "" == "")) = true)) := by
  refine ⟨?_, ?_, ?_, ?_, ?_⟩
  · rw [List.all_eq_true]
    intro it hit
    rcases leagueLoop_mem now anchors [] it hit with h0 | ⟨a, ha, hacc, pub, hpub, rfl⟩
    · simp at h0
    · have hlink := leagueAccept_ne_empty a.href hacc
      simp [dgetD, dget_mkFeedItem_link, hlink]
  · rw [List.all_eq_true]
    intro it hit
    rcases valorantLoop_mem now anchors [] it hit with h0 | ⟨a, ha, hacc, rfl⟩
    · simp at h0
    · have hlink := valorantAccept_ne_empty a.href hacc
      simp [dgetD, dget_mkFeedItem_link, hlink]
  · rw [List.all_eq_true]
    intro it hit
    rcases gamerskyLoop_mem now anchors [] it hit with h0 | ⟨a, ha, hacc, htext, rfl⟩
    · simp at h0
    · have hlink := gamerskyAccept_ne_empty a.href hacc
      simp [dgetD, dget_mkFeedItem_link, hlink]
  · rw [List.all_eq_true]
    intro it hit
    rcases gamerskyLoop_mem now anchors [] it hit with h0 | ⟨a, ha, hacc, htext, rfl⟩
    · simp at h0
    · have htitle := unescape_ne_empty a.text htext
      simp [dgetD, dget_mkFeedItem_title, htitle]
  · intro h
    constructor
    · rw [List.all_eq_true]
      intro it hit
      rcases leagueLoop_mem now anchors [] it hit with h0 | ⟨a, ha, hacc, pub, hpub, rfl⟩
      · simp at h0
      · have htitle := leagueTitle_ne_empty a (h a ha hacc)
        simp [dgetD, dget_mkFeedItem_title, htitle]
    · rw [List.all_eq_true]
      intro it hit
      rcases valorantLoop_mem now anchors [] it hit with h0 | ⟨a, ha, hacc, rfl⟩
      · simp at h0
      · rw [valorantAccept_eq_leagueAccept] at hacc
        have htitle := valorantTitle_ne_empty a (h a ha hacc)
        simp [dgetD, dget_mkFeedItem_title, htitle]

/-- C3 witness: on a concrete anchor list (one dev-news anchor, one
review anchor, one rejected anchor with empty text and an empty title
attribute) every produced item has a non-empty link, review-site titles
are non-empty, and — the accepted anchors having text — all titles are
non-empty. -/
theorem C3_title_link_nonempty_witness :
    ((fetch_league_dev [⟨"/news/dev/a", "Patch notes", none⟩,
        ⟨"/news/1.shtml", "Review", none⟩, ⟨"/other", "", some ""⟩]
        "Thu, 01 Aug 2025 12:00:00 +0000").all
        (fun it => !(dgetD it "link" "" == "")) = true)
    ∧ ((fetch_valorant_dev [⟨"/news/dev/a", "Patch notes", none⟩,
        ⟨"/news/1.shtml", "Review", none⟩, ⟨"/other", "", some ""⟩]
        "Thu, 01 Aug 2025 12:00:00 +0000").all
        (fun it => !(dgetD it "link" "" == "")) = true)
    ∧ ((fetch_gamersky_reviews [⟨"/news/dev/a", "Patch notes", none⟩,
        ⟨"/news/1.shtml", "Review", none⟩, ⟨"/other", "", some ""⟩]
        "Thu, 01 Aug 2025 12:00:00 +0000").all
        (fun it => !(dgetD it "link" "" == "")) = true)
    ∧ ((fetch_gamersky_reviews [⟨"/news/dev/a", "Patch notes", none⟩,
        ⟨"/news/1.shtml", "Review", none⟩, ⟨"/other", "", some ""⟩]
        "Thu, 01 Aug 2025 12:00:00 +0000").all
        (fun it => !(dgetD it "title" "" == "")) = true)
    ∧ ((fetch_league_dev [⟨"/news/dev/a", "Patch notes", none⟩,
        ⟨"/news/1.shtml", "Review", none⟩, ⟨"/other", "", some ""⟩]
        "Thu, 01 Aug 2025 12:00:00 +0000").all
        (fun it => !(dgetD it "title" "" == "")) = true)
    ∧ ((fetch_valorant_dev [⟨"/news/dev/a", "Patch notes", none⟩,
        ⟨"/news/1.shtml", "Review", none⟩, ⟨"/other", "", some ""⟩]
        "Thu, 01 Aug 2025 12:00:00 +0000").all
        (fun it => !(dgetD it "title" "" == "")) = true) :=
  ⟨(C3_title_link_nonempty "Thu, 01 Aug 2025 12:00:00 +0000"
      [⟨"/news/dev/a", "Patch notes", none⟩, ⟨"/news/1.shtml", "Review", none⟩,
       ⟨"/other", "", some ""⟩]).1,
   (C3_title_link_nonempty "Thu, 01 Aug 2025 12:00:00 +0000"
      [⟨"/news/dev/a", "Patch notes", none⟩, ⟨"/news/1.shtml", "Review", none⟩,
       ⟨"/other", "", some ""⟩]).2.1,
   (C3_title_link_nonempty "Thu, 01 Aug 2025 12:00:00 +0000"
      [⟨"/news/dev/a", "Patch notes", none⟩, ⟨"/news/1.shtml", "Review", none⟩,
       ⟨"/other", "", some ""⟩]).2.2.1,
   (C3_title_link_nonempty "Thu, 01 Aug 2025 12:00:00 +0000"
      [⟨"/news/dev/a", "Patch notes", none⟩, ⟨"/news/1.shtml", "Review", none⟩,
       ⟨"/other", "", some ""⟩]).2.2.2.1,
   ((C3_title_link_nonempty "Thu, 01 Aug 2025 12:00:00 +0000"
      [⟨"/news/dev/a", "Patch notes", none⟩, ⟨"/news/1.shtml", "Review", none⟩,
       ⟨"/other", "", some ""⟩]).2.2.2.2 (by decide)).1,
   ((C3_title_link_nonempty "Thu, 01 Aug 2025 12:00:00 +0000"
      [⟨"/news/dev/a", "Patch notes", none⟩, ⟨"/news/1.shtml", "Review", none⟩,
       ⟨"/other", "", some ""⟩]).2.2.2.2 (by decide)).2⟩

/-- C1 counterexample: 13 July 2025 is a Sunday, so on the spec's example
title the extractor's `strftime("%a, ...")` renders
"Sun, 13 Jul 2025 00:00:00 +0000", not the claimed "Sat, ...". -/
theorem C1_counterexample :
    fetch_league_dev [⟨"/news/dev/a", "Dev 13/07/2025", none⟩]
        "Thu, 01 Aug 2025 12:00:00 +0000"
      = [mkFeedItem "Dev 13/07/2025" "Sun, 13 Jul 2025 00:00:00 +0000" "/news/dev/a"]
    ∧ dget (mkFeedItem "Dev 13/07/2025" "Sun, 13 Jul 2025 00:00:00 +0000" "/news/dev/a")
        "pubDate" ≠ some "Sat, 13 Jul 2025 00:00:00 +0000" := by
  decide

/-- C1 (amended): for an accepted anchor whose derived title's first
embedded `DD/MM/YYYY` match is `13/07/2025` (as in the spec's example
title "Dev 13/07/2025"), the produced FeedItem's pubDate is the parsed
date in RFC-2822 form with a `+0000` offset:
"Sun, 13 Jul 2025 00:00:00 +0000". -/
theorem C1_league_embedded_date (now : String) (a : Anchor)
    (hacc : leagueAccept a.href = true)
    (hdate : searchDate (leagueTitle a).data
      = some ['1', '3', '/', '0', '7', '/', '2', '0', '2', '5']) :
    fetch_league_dev [a] now
      = [mkFeedItem (unescape (leagueTitle a))
          "Sun, 13 Jul 2025 00:00:00 +0000" a.href] := by
  have hpub : leaguePubDate now (leagueTitle a)
      = some "Sun, 13 Jul 2025 00:00:00 +0000" := by
    rw [leaguePubDate, hdate]
    show (strptimeDMY ['1', '3', '/', '0', '7', '/', '2', '0', '2', '5']).map
        (fun v => fmtDMY v.1 v.2.1 v.2.2)
      = some "Sun, 13 Jul 2025 00:00:00 +0000"
    decide
  unfold fetch_league_dev
  rw [leagueLoop]
  simp only [hacc, if_true, hpub]
  rw [leagueLoop]
  simp

/-- C1 witness: evaluated at the spec's example title. -/
theorem C1_league_embedded_date_witness :
    fetch_league_dev [⟨"/news/dev/x", "Dev 13/07/2025", none⟩]
        "Thu, 01 Aug 2025 12:00:00 +0000"
      = [mkFeedItem "Dev 13/07/2025" "Sun, 13 Jul 2025 00:00:00 +0000" "/news/dev/x"] :=
  C1_league_embedded_date "Thu, 01 Aug 2025 12:00:00 +0000"
    ⟨"/news/dev/x", "Dev 13/07/2025", none⟩ (by decide) (by decide)
